import Mathlib

/-!
# Verification of the PDF-chat retrieval engine

Shallow embedding of the retrieval core of the repository
(`backend/vector_store.py`, `backend/document_processor.py`,
`backend/main.py`) and proofs about it.

Modelling conventions:
* Python lists become Lean `List`s; Python strings become `String`
  (or `List Char` where character indexing matters).
* Embedding vectors are `List ℚ`.  The embedder (`SentenceTransformer.encode`)
  is an external capability; every operation that calls it takes the
  embedder's outcome as an explicit `Except` parameter, so that both the
  success and the exception path of the Python `try`/`except` blocks are
  covered.  `faiss.normalize_L2` is a pure numeric transformation of that
  outcome; since no claim below depends on the numeric values of vectors,
  the supplied vectors stand for the post-normalisation embeddings.
* The two on-disk artifacts (`faiss_index.bin`, `metadata.pkl`) are modelled
  as `Artifact`s that are missing, corrupt (deserialisation raises), or good.
* File writes can fail (an exception inside `save_index`); the success of
  each of the two writes is an explicit `Bool` parameter.
* Emitted side effects are recorded as an `Event` trace so that "no
  persistence write was triggered" is expressible.
-/

/-- A vector produced by the embedder (dimension is irrelevant to the claims). -/
abbrev Vec := List ℚ

/-- `models.DocumentChunk` (pydantic model in `backend/models.py`). -/
structure DocumentChunk where
  content : String
  filename : String
  page_number : Nat
  chunk_id : String
  deriving DecidableEq, Repr

/-- The dict appended to `self.metadata` in `VectorStore.add_chunks`
(`{'content': .., 'filename': .., 'page_number': .., 'chunk_id': ..}`). -/
structure MetaRecord where
  content : String
  filename : String
  page_number : Nat
  chunk_id : String
  deriving DecidableEq, Repr

/-- `add_chunks` builds the metadata dict from the chunk's fields. -/
def DocumentChunk.toRecord (c : DocumentChunk) : MetaRecord :=
  ⟨c.content, c.filename, c.page_number, c.chunk_id⟩

/-- Failure of the external embedding call (`self.model.encode` raising). -/
inductive EmbedError where
  | fail (msg : String)
  deriving DecidableEq, Repr

/-- State of one on-disk artifact: the file may be absent, present but
failing to deserialise (`faiss.read_index` / `pickle.load` raising), or
present with parseable content `α`. -/
inductive Artifact (α : Type) where
  | missing
  | corrupt
  | good (a : α)
  deriving DecidableEq, Repr

/-- The persistence directory: `faiss_index.bin` and `metadata.pkl`. -/
structure Disk where
  indexFile : Artifact (List Vec)
  metadataFile : Artifact (List MetaRecord)
  deriving DecidableEq, Repr

/-- In-memory state of a `VectorStore` (`self.index`, `self.metadata`)
together with the durable state it persists to. -/
structure VSState where
  index : List Vec
  metadata : List MetaRecord
  disk : Disk
  deriving DecidableEq, Repr

/-- Observable side effects of vector-store operations. -/
inductive Event where
  | saveOk
  | saveFailed
  deriving DecidableEq, Repr

/-- `VectorStore._create_new_index`: fresh empty FAISS index and metadata
list (the disk is left as it was). -/
def createNewIndex (d : Disk) : VSState :=
  { index := [], metadata := [], disk := d }

/-- `VectorStore.load_or_create_index`: if both files exist, try to
deserialise them (any exception is caught and a fresh index created);
otherwise create a fresh index.  Note the source compares nothing about the
two loaded structures beyond successful deserialisation. -/
def load_or_create_index (d : Disk) : VSState :=
  match d.indexFile, d.metadataFile with
  | .missing, _ => createNewIndex d
  | _, .missing => createNewIndex d
  | .corrupt, _ => createNewIndex d
  | _, .corrupt => createNewIndex d
  | .good vecs, .good recs => { index := vecs, metadata := recs, disk := d }

/-- `VectorStore.save_index`: writes the FAISS index, then pickles the
metadata; any exception is caught and only printed (`except ... print`), so
the function always returns normally.  `wIdx`/`wMeta` say whether each of
the two writes succeeds; if the index write raises, the metadata write is
never attempted. -/
def save_index (s : VSState) (wIdx wMeta : Bool) : VSState × List Event :=
  if wIdx then
    let d1 : Disk := { s.disk with indexFile := .good s.index }
    if wMeta then
      ({ s with disk := { d1 with metadataFile := .good s.metadata } }, [.saveOk])
    else
      ({ s with disk := d1 }, [.saveFailed])
  else
    (s, [.saveFailed])

/-- `VectorStore.add_chunks`: returns immediately on an empty chunk list;
otherwise embeds all texts (exception re-raised with nothing mutated),
appends the vectors to the FAISS index and the per-chunk dicts to
`self.metadata`, then calls `save_index`.  `embedded` is the outcome of
`self.model.encode` composed with `faiss.normalize_L2`. -/
def add_chunks (s : VSState) (chunks : List DocumentChunk)
    (embedded : Except EmbedError (List Vec)) (wIdx wMeta : Bool) :
    Except EmbedError Unit × VSState × List Event :=
  match chunks with
  | [] => (.ok (), s, [])
  | _ :: _ =>
    match embedded with
    | .error e => (.error e, s, [])
    | .ok vs =>
      let s1 : VSState :=
        { s with index := s.index ++ vs,
                 metadata := s.metadata ++ chunks.map DocumentChunk.toRecord }
      let (s2, evs) := save_index s1 wIdx wMeta
      (.ok (), s2, evs)

/-- The state produced by `_create_new_index` over an empty directory:
what a first start of the application yields. -/
def emptyVS : VSState := createNewIndex ⟨.missing, .missing⟩

/-- States reachable by the engine's own in-memory operations: the fresh
empty store, followed by any sequence of `add_chunks` calls.  The embedder
contract (spec §4.2) returns one vector per input text, so the `ok` outcome
is constrained to have as many vectors as chunks. -/
inductive Reachable : VSState → Prop where
  | init : Reachable emptyVS
  | add (s : VSState) (chunks : List DocumentChunk)
      (embedded : Except EmbedError (List Vec)) (wIdx wMeta : Bool)
      (hlen : ∀ vs, embedded = .ok vs → vs.length = chunks.length)
      (hs : Reachable s) :
      Reachable (add_chunks s chunks embedded wIdx wMeta).2.1

/-- `save_index` never touches the in-memory index or metadata. -/
theorem save_index_preserves_mem (s : VSState) (wIdx wMeta : Bool) :
    (save_index s wIdx wMeta).1.index = s.index ∧
      (save_index s wIdx wMeta).1.metadata = s.metadata := by
  unfold save_index
  by_cases h1 : wIdx <;> by_cases h2 : wMeta <;> simp [h1, h2]

/-- C1: the positional-correspondence invariant.  In every reachable state
`len(index) = len(metadata)`; a successful `add_chunks` grows both by
exactly the number of chunks; and when embedding fails the state is
entirely unchanged (all-or-nothing). -/
theorem add_chunks_correspondence :
    (∀ s, Reachable s → s.index.length = s.metadata.length) ∧
    (∀ (s : VSState) (chunks : List DocumentChunk) (vs : List Vec)
        (wIdx wMeta : Bool), vs.length = chunks.length →
      (add_chunks s chunks (.ok vs) wIdx wMeta).2.1.index.length
          = s.index.length + chunks.length ∧
      (add_chunks s chunks (.ok vs) wIdx wMeta).2.1.metadata.length
          = s.metadata.length + chunks.length) ∧
    (∀ (s : VSState) (chunks : List DocumentChunk) (e : EmbedError)
        (wIdx wMeta : Bool),
      (add_chunks s chunks (.error e) wIdx wMeta).2.1 = s) := by
  have hok : ∀ (s : VSState) (chunks : List DocumentChunk) (vs : List Vec)
      (wIdx wMeta : Bool), vs.length = chunks.length →
      (add_chunks s chunks (.ok vs) wIdx wMeta).2.1.index.length
          = s.index.length + chunks.length ∧
      (add_chunks s chunks (.ok vs) wIdx wMeta).2.1.metadata.length
          = s.metadata.length + chunks.length := by
    intro s chunks vs wIdx wMeta hlen
    match chunks with
    | [] =>
      simp at hlen
      simp [add_chunks]
    | c :: cs =>
      unfold add_chunks
      obtain ⟨h1, h2⟩ := save_index_preserves_mem
        { s with index := s.index ++ vs,
                 metadata := s.metadata ++ (c :: cs).map DocumentChunk.toRecord }
        wIdx wMeta
      simp only [h1, h2]
      simp [hlen]
  have herr : ∀ (s : VSState) (chunks : List DocumentChunk) (e : EmbedError)
      (wIdx wMeta : Bool),
      (add_chunks s chunks (.error e) wIdx wMeta).2.1 = s := by
    intro s chunks e wIdx wMeta
    match chunks with
    | [] => rfl
    | c :: cs => rfl
  refine ⟨?_, hok, herr⟩
  intro s hs
  induction hs with
  | init => rfl
  | add s chunks embedded wIdx wMeta hlen _ ih =>
    match chunks with
    | [] => simpa [add_chunks] using ih
    | c :: cs =>
      match embedded with
      | .error e => simpa [herr] using ih
      | .ok vs =>
        obtain ⟨h1, h2⟩ := hok s (c :: cs) vs wIdx wMeta (hlen vs rfl)
        rw [h1, h2, ih]

/-- Witness for `add_chunks_correspondence` at concrete inputs. -/
theorem add_chunks_correspondence_witness :
    emptyVS.index.length = emptyVS.metadata.length ∧
    (add_chunks emptyVS [⟨"hello world", "A.pdf", 1, "id0"⟩] (.ok [[1]])
        true true).2.1.index.length = emptyVS.index.length + 1 ∧
    (add_chunks emptyVS [⟨"hello world", "A.pdf", 1, "id0"⟩]
        (.error (.fail "boom")) true true).2.1 = emptyVS :=
  ⟨add_chunks_correspondence.1 emptyVS .init,
   (add_chunks_correspondence.2.1 emptyVS [⟨"hello world", "A.pdf", 1, "id0"⟩]
      [[1]] true true (by decide)).1,
   add_chunks_correspondence.2.2 emptyVS [⟨"hello world", "A.pdf", 1, "id0"⟩]
      (.fail "boom") true true⟩

/-- C9: `add_chunks` on an empty chunk list is a no-op: the state (index,
metadata and disk) is returned unchanged and no save event is emitted. -/
theorem add_chunks_nil_noop (s : VSState)
    (embedded : Except EmbedError (List Vec)) (wIdx wMeta : Bool) :
    add_chunks s [] embedded wIdx wMeta = (.ok (), s, []) :=
  rfl

/-- Inner product of two vectors (`faiss.IndexFlatIP` similarity). -/
def dot (a b : Vec) : ℚ := (List.zipWith (fun x y => x * y) a b).sum

/-- The stored vectors paired with their insertion positions, scored
against a query vector: entry `i` of the FAISS index yields `(⟪q, vᵢ⟫, i)`. -/
def scorePairs (q : Vec) : List Vec → Nat → List (ℚ × Nat)
  | [], _ => []
  | v :: vs, i => (dot q v, i) :: scorePairs q vs (i + 1)

/-- Ranking order on `(score, position)` pairs: higher score first, and for
equal scores the earlier-inserted (smaller position) entry first. -/
def rankLE (a b : ℚ × Nat) : Prop := b.1 < a.1 ∨ (a.1 = b.1 ∧ a.2 ≤ b.2)

instance : DecidableRel rankLE := fun a b => by
  unfold rankLE; infer_instance

instance : IsTotal (ℚ × Nat) rankLE where
  total a b := by
    rcases lt_trichotomy a.1 b.1 with h | h | h
    · exact .inr (.inl h)
    · rcases Nat.le_total a.2 b.2 with h2 | h2
      · exact .inl (.inr ⟨h, h2⟩)
      · exact .inr (.inr ⟨h.symm, h2⟩)
    · exact .inl (.inl h)

instance : IsTrans (ℚ × Nat) rankLE where
  trans a b c hab hbc := by
    rcases hab with h1 | ⟨h1, h1'⟩ <;> rcases hbc with h2 | ⟨h2, h2'⟩
    · exact .inl (h2.trans h1)
    · exact .inl (h2 ▸ h1)
    · exact .inl (h1 ▸ h2)
    · exact .inr ⟨h1.trans h2, h1'.trans h2'⟩

/-- Modelled from the spec: the search of the external `faiss.IndexFlatIP`
(called in `VectorStore.search`; the FAISS library itself is not part of
this repository).  An exact flat index returns the `k` entries of highest
inner product with the query; per the Index contract of spec §4.3 ties are
broken stably by insertion order.  The model ranks every stored vector and
takes the first `k`. -/
def faissSearch (vecs : List Vec) (q : Vec) (k : Nat) : List (ℚ × Nat) :=
  (List.insertionSort rankLE (scorePairs q vecs 0)).take k

/-- The `(score, idx)` stream `zip(scores[0], indices[0])` that
`VectorStore.search` iterates over: the FAISS result for the query at
`min(k, len(self.metadata))`. -/
def searchRaw (s : VSState) (q : Vec) (k : Nat) : List (ℚ × Nat) :=
  faissSearch s.index q (min k s.metadata.length)

/-- `VectorStore.search`: empty metadata short-circuits to `[]`; otherwise
the query is embedded (any exception in the `try` block — in particular a
failing `model.encode` — is caught and `[]` returned), FAISS is queried
with `min(k, len(metadata))`, and each returned slot whose position is in
range for the metadata list yields a `(metadata[idx], score)` result;
out-of-range slots are silently dropped.  (The source also drops the FAISS
sentinel `-1`, which the flat-index model never produces since it is only
asked for `min(k, ntotal) ≤ ntotal` entries.) -/
def VectorStore.search (s : VSState) (embedQ : Except EmbedError Vec)
    (k : Nat) : List (MetaRecord × ℚ) :=
  if s.metadata.length = 0 then []
  else
    match embedQ with
    | .error _ => []
    | .ok q =>
      (searchRaw s q k).filterMap fun p =>
        if h : p.2 < s.metadata.length then
          some (s.metadata.get ⟨p.2, h⟩, p.1)
        else none

/-- Every pair produced by `scorePairs _ _ i` has position at least `i`. -/
theorem scorePairs_pos_ge (q : Vec) :
    ∀ (vs : List Vec) (i : Nat), ∀ p ∈ scorePairs q vs i, i ≤ p.2 := by
  intro vs
  induction vs with
  | nil => intro i p hp; simp [scorePairs] at hp
  | cons v vs ih =>
    intro i p hp
    simp only [scorePairs, List.mem_cons] at hp
    rcases hp with h | h
    · simp [h]
    · exact Nat.le_of_succ_le (ih (i + 1) p h)

/-- Positions in `scorePairs` are strictly increasing, hence pairwise
distinct. -/
theorem scorePairs_pairwise_ne (q : Vec) :
    ∀ (vs : List Vec) (i : Nat),
      (scorePairs q vs i).Pairwise (fun a b => a.2 ≠ b.2) := by
  intro vs
  induction vs with
  | nil => intro i; simp [scorePairs]
  | cons v vs ih =>
    intro i
    simp only [scorePairs]
    refine List.Pairwise.cons ?_ (ih (i + 1))
    intro p hp
    have := scorePairs_pos_ge q vs (i + 1) p hp
    simp only
    omega

/-- The FAISS result stream is sorted: scores non-increasing, and equal
scores ordered by strictly increasing insertion position. -/
theorem faissSearch_sorted (vecs : List Vec) (q : Vec) (k : Nat) :
    (faissSearch vecs q k).Pairwise
      (fun a b => b.1 ≤ a.1 ∧ (a.1 = b.1 → a.2 < b.2)) := by
  have hsort : (List.insertionSort rankLE (scorePairs q vecs 0)).Pairwise rankLE :=
    List.sorted_insertionSort rankLE (scorePairs q vecs 0)
  have hne : (List.insertionSort rankLE (scorePairs q vecs 0)).Pairwise
      (fun a b => a.2 ≠ b.2) :=
    (scorePairs_pairwise_ne q vecs 0).perm
      (List.perm_insertionSort rankLE (scorePairs q vecs 0)).symm
      (fun h => h.symm)
  have hand := List.Pairwise.and hsort hne
  have himp : (List.insertionSort rankLE (scorePairs q vecs 0)).Pairwise
      (fun a b => b.1 ≤ a.1 ∧ (a.1 = b.1 → a.2 < b.2)) := by
    refine hand.imp ?_
    intro a b hab
    obtain ⟨hr, hne2⟩ := hab
    rcases hr with h | ⟨h, h2⟩
    · exact ⟨le_of_lt h, fun he => absurd he (ne_of_gt h)⟩
    · exact ⟨le_of_eq h.symm, fun _ => lt_of_le_of_ne h2 hne2⟩
  exact himp.sublist (List.take_sublist k _)

/-- C5: top-k ordering.  The `(score, position)` stream consumed by
`VectorStore.search` has non-increasing scores, with exact ties ordered by
insertion position (earlier-inserted first); consequently the scores of the
returned results are non-increasing. -/
theorem search_topk_ordering (s : VSState) (q : Vec) (k : Nat) :
    (searchRaw s q k).Pairwise
        (fun a b => b.1 ≤ a.1 ∧ (a.1 = b.1 → a.2 < b.2)) ∧
    (VectorStore.search s (.ok q) k).Pairwise (fun a b => b.2 ≤ a.2) := by
  constructor
  · exact faissSearch_sorted s.index q (min k s.metadata.length)
  · unfold VectorStore.search
    by_cases h0 : s.metadata.length = 0
    · simp [h0]
    · rw [if_neg h0]
      have hraw := faissSearch_sorted s.index q (min k s.metadata.length)
      refine List.Pairwise.filterMap _ ?_ hraw
      intro a b hab x hx y hy
      by_cases hA : a.2 < s.metadata.length
      · by_cases hB : b.2 < s.metadata.length
        · simp only [dif_pos hA, Option.mem_some_iff] at hx
          simp only [dif_pos hB, Option.mem_some_iff] at hy
          rw [← hx, ← hy]
          exact hab.1
        · simp [dif_neg hB] at hy
      · simp [dif_neg hA] at hx

/-- C4: `search` returns at most `min(k, total entries)` results, every
result carries a record of the Metadata Store, and on an empty store it
returns `[]` (not an error) for any query outcome and any `k`. -/
theorem search_bounds (s : VSState) (embedQ : Except EmbedError Vec)
    (k : Nat) :
    (VectorStore.search s embedQ k).length ≤ min k s.metadata.length ∧
    (∀ p ∈ VectorStore.search s embedQ k, p.1 ∈ s.metadata) ∧
    (s.metadata = [] → VectorStore.search s embedQ k = []) := by
  refine ⟨?_, ?_, ?_⟩
  · unfold VectorStore.search
    by_cases h0 : s.metadata.length = 0
    · simp [h0]
    · rw [if_neg h0]
      match embedQ with
      | .error _ => simp
      | .ok q =>
        calc ((searchRaw s q k).filterMap _).length
            ≤ (searchRaw s q k).length := List.length_filterMap_le _ _
          _ ≤ min k s.metadata.length := by
              unfold searchRaw faissSearch
              exact List.length_take_le _ _
  · intro p hp
    unfold VectorStore.search at hp
    by_cases h0 : s.metadata.length = 0
    · simp [h0] at hp
    · rw [if_neg h0] at hp
      match embedQ with
      | .error _ => simp at hp
      | .ok q =>
        simp only [List.mem_filterMap] at hp
        obtain ⟨a, _, ha⟩ := hp
        simp only [Option.dite_none_right_eq_some, Option.some.injEq] at ha
        obtain ⟨hlt, ha⟩ := ha
        rw [← ha]
        exact List.get_mem _ _ _
  · intro h
    unfold VectorStore.search
    simp [h]

/-- Witness for `search_bounds` on a concrete empty store. -/
theorem search_bounds_witness :
    VectorStore.search emptyVS (.ok [1]) 5 = [] :=
  (search_bounds emptyVS (.ok [1]) 5).2.2 rfl

/-- C10: on a non-empty store, if the embedding call raises, `search`
catches the exception and returns `[]` — indistinguishable at the interface
from a query that matched nothing. -/
theorem search_swallows_errors (s : VSState) (e : EmbedError) (k : Nat)
    (h : s.metadata.length ≠ 0) :
    VectorStore.search s (.error e) k = [] := by
  unfold VectorStore.search
  rw [if_neg h]

/-- Witness for `search_swallows_errors` on a concrete one-entry store. -/
theorem search_swallows_errors_witness :
    VectorStore.search
        { index := [[1]], metadata := [⟨"c", "A.pdf", 1, "id0"⟩],
          disk := ⟨.missing, .missing⟩ }
        (.error (.fail "model down")) 5 = [] :=
  search_swallows_errors _ (.fail "model down") 5 (by decide)

/-- C2 counterexample: a pair of parseable artifacts with different entry
counts (one vector, zero metadata records) is loaded as-is — no mutual-
consistency validation and no fallback to an empty store takes place. -/
theorem load_accepts_inconsistent_artifacts :
    (load_or_create_index ⟨.good [[1]], .good []⟩).index.length = 1 ∧
    (load_or_create_index ⟨.good [[1]], .good []⟩).metadata.length = 0 :=
  ⟨rfl, rfl⟩

/-- C2 (amended): loading checks only that both artifact files exist and
deserialise; when both do, their contents are installed verbatim (entry
counts are never compared); on a missing file or a caught deserialisation
error the engine falls back to a fresh empty Index and Metadata Store, and
no exception propagates (the function is total). -/
theorem load_or_create_fallback :
    (∀ (vecs : List Vec) (recs : List MetaRecord),
      load_or_create_index ⟨.good vecs, .good recs⟩
        = { index := vecs, metadata := recs,
            disk := ⟨.good vecs, .good recs⟩ }) ∧
    (∀ d : Disk,
      (d.indexFile = .missing ∨ d.metadataFile = .missing ∨
        d.indexFile = .corrupt ∨ d.metadataFile = .corrupt) →
      load_or_create_index d = createNewIndex d) := by
  constructor
  · intro vecs recs; rfl
  · rintro ⟨fi, fm⟩ h
    cases fi <;> cases fm <;> simp_all [load_or_create_index]

/-- Witness for `load_or_create_fallback`: a corrupt index artifact makes
startup fall back to a fresh empty store. -/
theorem load_or_create_fallback_witness :
    load_or_create_index ⟨.corrupt, .good []⟩
      = createNewIndex ⟨.corrupt, .good []⟩ :=
  load_or_create_fallback.2 ⟨.corrupt, .good []⟩ (Or.inr (Or.inr (Or.inl rfl)))

/-- C3 counterexample: with both durable writes failing, `add_chunks` still
returns success — the exception is caught inside `save_index` and only
printed.  The in-memory state has the new chunk, the disk is untouched
(`saveFailed` event), and the operation's result is `.ok`. -/
theorem add_chunks_persist_failure_swallowed :
    add_chunks emptyVS [⟨"hello world", "A.pdf", 1, "id0"⟩] (.ok [[1]])
        false false
      = (.ok (),
         { index := [[1]],
           metadata := [⟨"hello world", "A.pdf", 1, "id0"⟩],
           disk := ⟨.missing, .missing⟩ },
         [.saveFailed]) :=
  rfl

/-- C3 (amended): on a non-empty batch with a successful embedding,
`add_chunks` calls `save_index` synchronously before returning, and when
both writes succeed the new index and metadata are on disk at return; but a
write failure is swallowed inside `save_index` (logged only), so the add
still reports success. -/
theorem add_chunks_persist_before_return (s : VSState) (c : DocumentChunk)
    (cs : List DocumentChunk) (vs : List Vec) (wIdx wMeta : Bool) :
    (add_chunks s (c :: cs) (.ok vs) wIdx wMeta).1 = .ok () ∧
    (add_chunks s (c :: cs) (.ok vs) true true).2.1.disk
        = ⟨.good (s.index ++ vs),
           .good (s.metadata ++ (c :: cs).map DocumentChunk.toRecord)⟩ ∧
    (wIdx = false ∨ wMeta = false →
      (add_chunks s (c :: cs) (.ok vs) wIdx wMeta).2.2 = [.saveFailed]) := by
  refine ⟨?_, rfl, ?_⟩
  · unfold add_chunks save_index
    by_cases h1 : wIdx <;> by_cases h2 : wMeta <;> simp [h1, h2]
  · intro h
    unfold add_chunks save_index
    rcases h with h | h
    · subst h; simp
    · subst h
      by_cases h1 : wIdx <;> simp [h1]

/-- Witness for `add_chunks_persist_before_return` at a concrete input with
a failing metadata write. -/
theorem add_chunks_persist_before_return_witness :
    (add_chunks emptyVS [⟨"hello world", "A.pdf", 1, "id0"⟩] (.ok [[1]])
        true false).1 = .ok () ∧
    (add_chunks emptyVS [⟨"hello world", "A.pdf", 1, "id0"⟩] (.ok [[1]])
        true false).2.2 = [.saveFailed] := by
  have h := add_chunks_persist_before_return emptyVS
    ⟨"hello world", "A.pdf", 1, "id0"⟩ [] [[1]] true false
  exact ⟨h.1, h.2.2 (Or.inr rfl)⟩

/-- The sentence-terminal characters of `create_chunks` (`'.!?\n'`). -/
def sentenceEnds : List Char := ['.', '!', '?', '\n']

/-- Python `str.strip()`: drop whitespace from both ends. -/
def pyStrip (l : List Char) : List Char :=
  ((l.dropWhile Char.isWhitespace).reverse.dropWhile Char.isWhitespace).reverse

/-- Structural worker for the backward scan: visit `steps` positions
starting at `i` and counting down, returning the first position holding a
sentence-terminal character. -/
def scanBackAux (text : List Char) (lo : Nat) : Nat → Nat → Option Nat
  | _, 0 => none
  | i, steps + 1 =>
    if text.getD i ' ' ∈ sentenceEnds then some i
    else scanBackAux text lo (i - 1) steps

/-- The backward scan `for i in range(end, max(start, end - 100), -1)` of
`create_chunks`: visit positions `i, i-1, ..., lo+1` and return the first
(i.e. highest) position holding a sentence-terminal character.  Positions
passed to it are always in range for `text`, so `getD` never uses its
default. -/
def scanBack (text : List Char) (i lo : Nat) : Option Nat :=
  scanBackAux text lo i (i - lo)

/-- The adjusted window end of one `create_chunks` iteration:
`end = min(start + chunk_size, len(text))`, then, when the window stops
before the text's end, the backward scan may move `end` to just past a
sentence-terminal character. -/
def computeEnd (chunkSize : Nat) (text : List Char) (start : Nat) : Nat :=
  let end0 := min (start + chunkSize) text.length
  if end0 < text.length then
    match scanBack text end0 (max start (end0 - 100)) with
    | some i => i + 1
    | none => end0
  else end0

/-- The window advance of `create_chunks`:
`start = end - chunk_overlap if end < len(text) else end`. -/
def nextStart (chunkSize overlap : Nat) (text : List Char) (start : Nat) :
    Nat :=
  let e := computeEnd chunkSize text start
  if e < text.length then e - overlap else e

/-- The `while start < len(text)` loop of `create_chunks` for one page.
The trimmed window `text[start:end].strip()` is kept only when longer than
50 characters.  `chunk_id` is a fresh `uuid4` in the source, an opaque
identifier no claim depends on; it is modelled as `""`.  The loop is given
explicit fuel because for adversarial parameter values the Python loop need
not terminate; `create_chunks_terminates` shows the fuel used below
suffices for the default parameters. -/
def chunkLoop (chunkSize overlap : Nat) (text : List Char)
    (filename : String) (page : Nat) : Nat → Nat → List DocumentChunk
  | _, 0 => []
  | start, fuel + 1 =>
    if start < text.length then
      let e := computeEnd chunkSize text start
      let chunkText := pyStrip ((text.drop start).take (e - start))
      let rest := chunkLoop chunkSize overlap text filename page
          (nextStart chunkSize overlap text start) fuel
      if 50 < chunkText.length then
        ⟨⟨chunkText⟩, filename, page, ""⟩ :: rest
      else rest
    else []

/-- One page of extracted text (`{'text': ..., 'page_number': ...}`). -/
structure PageText where
  text : List Char
  page_number : Nat

/-- `DocumentProcessor.create_chunks`: chunk every page in order and
concatenate the resulting segments. -/
def create_chunks (chunkSize overlap : Nat) (pages : List PageText)
    (filename : String) : List DocumentChunk :=
  (pages.map fun p =>
    chunkLoop chunkSize overlap p.text filename p.page_number 0
      (p.text.length + 1)).flatten

/-- Unfolding equation for one iteration of `chunkLoop`. -/
theorem chunkLoop_succ (chunkSize overlap : Nat) (text : List Char)
    (filename : String) (page : Nat) (start fuel : Nat) :
    chunkLoop chunkSize overlap text filename page start (fuel + 1)
      = if start < text.length then
          (if 50 < (pyStrip ((text.drop start).take
                (computeEnd chunkSize text start - start))).length then
            (⟨⟨pyStrip ((text.drop start).take
                  (computeEnd chunkSize text start - start))⟩,
              filename, page, ""⟩ : DocumentChunk)
              :: chunkLoop chunkSize overlap text filename page
                  (nextStart chunkSize overlap text start) fuel
          else chunkLoop chunkSize overlap text filename page
              (nextStart chunkSize overlap text start) fuel)
        else [] := rfl

/-- A successful scan of the worker returns a position inside `(lo, i]`. -/
theorem scanBackAux_some_bounds (text : List Char) (lo : Nat) :
    ∀ (steps i j : Nat), i = lo + steps →
      scanBackAux text lo i steps = some j → lo < j ∧ j ≤ i := by
  intro steps
  induction steps with
  | zero => intro i j _ h; simp [scanBackAux] at h
  | succ steps ih =>
    intro i j hi h
    unfold scanBackAux at h
    by_cases hc : text.getD i ' ' ∈ sentenceEnds
    · rw [if_pos hc] at h
      have : i = j := Option.some_inj.mp h
      omega
    · rw [if_neg hc] at h
      have := ih (i - 1) j (by omega) h
      omega

/-- A successful backward scan returns a position inside `(lo, i]`. -/
theorem scanBack_some_bounds (text : List Char) (i lo j : Nat)
    (h : scanBack text i lo = some j) : lo < j ∧ j ≤ i := by
  unfold scanBack at h
  by_cases hle : i ≤ lo
  · have h0 : i - lo = 0 := by omega
    rw [h0] at h
    simp [scanBackAux] at h
  · exact scanBackAux_some_bounds text lo (i - lo) i j (by omega) h

/-- The worker finds the highest terminal position among the `steps`
positions `i, i-1, ...` it visits. -/
theorem scanBackAux_finds_last (text : List Char) (lo : Nat) :
    ∀ (steps i j : Nat), i = lo + steps → lo < j → j ≤ i →
      text.getD j ' ' ∈ sentenceEnds →
      (∀ j2, j2 ≤ i → j < j2 → text.getD j2 ' ' ∉ sentenceEnds) →
      scanBackAux text lo i steps = some j := by
  intro steps
  induction steps with
  | zero => intro i j hi h1 h2 _ _; omega
  | succ steps ih =>
    intro i j hi h1 h2 hterm hlast
    unfold scanBackAux
    by_cases hc : text.getD i ' ' ∈ sentenceEnds
    · rw [if_pos hc]
      by_cases hij : j = i
      · rw [hij]
      · exact absurd hc (hlast i (le_refl i) (by omega))
    · rw [if_neg hc]
      have hji : j ≤ i - 1 := by
        rcases Nat.lt_or_ge j i with h | h
        · omega
        · have hj : j = i := by omega
          exact absurd (hj ▸ hterm) hc
      exact ih (i - 1) j (by omega) h1 hji hterm
        (fun j2 ha hb => hlast j2 (by omega) hb)

/-- The backward scan finds the highest terminal position in `(lo, i]`. -/
theorem scanBack_finds_last (text : List Char) (i lo j : Nat)
    (h1 : lo < j) (h2 : j ≤ i)
    (hterm : text.getD j ' ' ∈ sentenceEnds)
    (hlast : ∀ j2, j2 ≤ i → j < j2 → text.getD j2 ' ' ∉ sentenceEnds) :
    scanBack text i lo = some j := by
  unfold scanBack
  exact scanBackAux_finds_last text lo (i - lo) i j (by omega) h1 h2 hterm
    hlast

/-- C6 (amended): the chunk-boundary search window is off by one at both
ends relative to the claim.  When the window stops before the text's end
(`end0 = min(start + chunk_size, L) < L`) and the **last** sentence-terminal
character in positions `max(start, end0 - 100) + 1 .. end0` sits at
position `j`, the window's computed end — the slice bound of the emitted
chunk — is exactly `j + 1`.  Position `end0 - 100` itself is never
examined, while position `end0` (one past the claim's window) is. -/
theorem computeEnd_boundary (chunkSize : Nat) (text : List Char)
    (start j : Nat)
    (hwin : min (start + chunkSize) text.length < text.length)
    (hj : max start (min (start + chunkSize) text.length - 100) < j)
    (hj2 : j ≤ min (start + chunkSize) text.length)
    (hterm : text.getD j ' ' ∈ sentenceEnds)
    (hlast : ∀ j2, j2 ≤ min (start + chunkSize) text.length → j < j2 →
        text.getD j2 ' ' ∉ sentenceEnds) :
    computeEnd chunkSize text start = j + 1 := by
  unfold computeEnd
  simp only [if_pos hwin]
  rw [scanBack_finds_last text (min (start + chunkSize) text.length)
    (max start (min (start + chunkSize) text.length - 100)) j hj hj2 hterm
    hlast]

/-- Witness for `computeEnd_boundary`: text `aaa.aaa` with window size 5
ends its first chunk just after the period at position 3. -/
theorem computeEnd_boundary_witness :
    computeEnd 5 ['a', 'a', 'a', '.', 'a', 'a', 'a'] 0 = 3 + 1 :=
  computeEnd_boundary 5 ['a', 'a', 'a', '.', 'a', 'a', 'a'] 0 3
    (by decide) (by decide) (by decide) (by decide) (by decide)

/-- A page of 1002 characters whose only sentence-terminal character sits
exactly 100 positions before the first window's computed end
(`end0 = 1000`): position 900 = `end0 - 100`. -/
def txt0 : List Char :=
  List.replicate 900 'a' ++ '.' :: List.replicate 101 'a'

set_option maxRecDepth 100000 in
/-- C6 counterexample: with the default parameters, a terminal character at
position `end0 - 100` — inside the claim's window `end0-100 .. end0-1` — is
*not* found by the source's backward scan (`range(end, max(start, end-100),
-1)` stops at `end-99`), so the first emitted chunk ends at position 1000,
not just after the period at 900: the claim would require a first chunk of
length 901, but the chunks have lengths 1000 and 202. -/
theorem create_chunks_boundary_counterexample :
    ((create_chunks 1000 200 [⟨txt0, 1⟩] "A.pdf").map
        fun c => c.content.length) = [1000, 202] ∧
    txt0.getD 900 ' ' ∈ sentenceEnds ∧
    (∀ j, j ≤ 999 → 900 < j → txt0.getD j ' ' ∉ sentenceEnds) := by
  refine ⟨by decide, by decide, by decide⟩

/-- With the default parameters the window start strictly increases every
iteration of the chunking loop. -/
theorem nextStart_increases (text : List Char) (start : Nat)
    (h : start < text.length) : start < nextStart 1000 200 text start := by
  unfold nextStart computeEnd
  by_cases he : min (start + 1000) text.length < text.length
  · have he0 : min (start + 1000) text.length = start + 1000 := by omega
    rw [he0]
    simp only [if_pos (he0 ▸ he)]
    cases hscan : scanBack text (start + 1000)
        (max start (start + 1000 - 100)) with
    | none =>
      simp only [hscan]
      by_cases h2 : start + 1000 < text.length
      · rw [if_pos h2]; omega
      · rw [if_neg h2]; omega
    | some j =>
      simp only [hscan]
      have hb := scanBack_some_bounds text (start + 1000)
        (max start (start + 1000 - 100)) j hscan
      by_cases h2 : j + 1 < text.length
      · rw [if_pos h2]; omega
      · rw [if_neg h2]; omega
  · have he0 : min (start + 1000) text.length = text.length := by omega
    rw [he0]
    simp only [if_neg (lt_irrefl text.length), if_neg he]
    omega

/-- For the default parameters, any fuel of at least `len(text) - start`
computes the same chunk list: the loop finishes within `len(text) - start`
iterations, so its work is bounded by the input size. -/
theorem chunkLoop_fuel_sufficient (text : List Char) (filename : String)
    (page : Nat) :
    ∀ (fuel start : Nat), text.length - start ≤ fuel →
      chunkLoop 1000 200 text filename page start fuel
        = chunkLoop 1000 200 text filename page start
            (text.length - start) := by
  intro fuel
  induction fuel using Nat.strong_induction_on with
  | _ fuel ih =>
    intro start hf
    by_cases hs : start < text.length
    · have h1 : 1 ≤ text.length - start := by omega
      obtain ⟨f2, rfl⟩ : ∃ f2, fuel = f2 + 1 := ⟨fuel - 1, by omega⟩
      have hd : text.length - start = (text.length - start - 1) + 1 := by
        omega
      rw [hd, chunkLoop_succ, chunkLoop_succ, if_pos hs, if_pos hs]
      have hinc := nextStart_increases text start hs
      have hL : chunkLoop 1000 200 text filename page
            (nextStart 1000 200 text start) f2
          = chunkLoop 1000 200 text filename page
              (nextStart 1000 200 text start)
              (text.length - nextStart 1000 200 text start) :=
        ih f2 (by omega) _ (by omega)
      have hR : chunkLoop 1000 200 text filename page
            (nextStart 1000 200 text start) (text.length - start - 1)
          = chunkLoop 1000 200 text filename page
              (nextStart 1000 200 text start)
              (text.length - nextStart 1000 200 text start) :=
        ih (text.length - start - 1) (by omega) _ (by omega)
      rw [hL, hR]
    · have h0 : text.length - start = 0 := by omega
      rw [h0]
      obtain ⟨f2, rfl⟩ | rfl : (∃ f2, fuel = f2 + 1) ∨ fuel = 0 := by
        rcases fuel with _ | f2
        · exact Or.inr rfl
        · exact Or.inl ⟨f2, rfl⟩
      · rw [chunkLoop_succ, if_neg hs]; rfl
      · rfl

/-- C8: `create_chunks` terminates on every input with the default
parameters `chunk_size = 1000`, `chunk_overlap = 200`: the window start
strictly increases each iteration of the loop, and consequently
`len(text) - start` iterations of fuel always suffice — the loop's work is
bounded by the input size. -/
theorem create_chunks_terminates :
    (∀ (text : List Char) (start : Nat), start < text.length →
      start < nextStart 1000 200 text start) ∧
    (∀ (text : List Char) (filename : String) (page : Nat)
        (start fuel : Nat), text.length - start ≤ fuel →
      chunkLoop 1000 200 text filename page start fuel
        = chunkLoop 1000 200 text filename page start
            (text.length - start)) :=
  ⟨nextStart_increases,
   fun text filename page start fuel hf =>
     chunkLoop_fuel_sufficient text filename page fuel start hf⟩

/-- Witness for `create_chunks_terminates` on a concrete two-character
page. -/
theorem create_chunks_terminates_witness :
    0 < nextStart 1000 200 ['a', 'b'] 0 ∧
    chunkLoop 1000 200 ['a', 'b'] "A.pdf" 1 0 7
      = chunkLoop 1000 200 ['a', 'b'] "A.pdf" 1 0
          ((['a', 'b'] : List Char).length - 0) :=
  ⟨create_chunks_terminates.1 ['a', 'b'] 0 (by decide),
   create_chunks_terminates.2 ['a', 'b'] "A.pdf" 1 0 7 (by decide)⟩

/-- HTTP errors raised by `upload_pdfs` (`HTTPException`). -/
inductive HTTPErr where
  | badRequest (detail : String)
  | serverError (detail : String)
  deriving DecidableEq, Repr

/-- One file of a multi-file upload, together with the outcomes of the
external steps taken for it: `proc` is the result of saving the upload and
running `DocumentProcessor.process_pdf` on it (extraction failure, empty
document or processing failure raise, carrying a message), `embedded` and
the write flags feed the `add_chunks` call. -/
structure FileSpec where
  filename : String
  proc : Except String (List DocumentChunk)
  embedded : Except EmbedError (List Vec)
  wIdx : Bool
  wMeta : Bool

/-- Per-file success report (`{'filename': ..., 'chunks_created': ...}`). -/
structure ProcessedInfo where
  filename : String
  chunks_created : Nat
  deriving DecidableEq, Repr

/-- Python `str.endswith`, on the character lists of the strings (the
built-in `String.endsWith` does not evaluate by kernel reduction). -/
def pyEndsWith (s suffix : String) : Bool :=
  suffix.data.isSuffixOf s.data

/-- `upload_pdfs` (`backend/main.py`): iterate over the uploaded files in
order.  A filename not ending in `.pdf` raises HTTP 400 immediately.  For
each file the body saves it, processes it to chunks and calls
`vector_store.add_chunks`; any exception in that `try` block (processing
failure, empty chunk list, embedding failure) is turned into an HTTP 500
that propagates out of the `for` loop.  The vector-store state is threaded
through, so chunks added for earlier files remain added when a later file
fails. -/
def upload_pdfs (s : VSState) :
    List FileSpec → Except HTTPErr (List ProcessedInfo) × VSState
  | [] => (.ok [], s)
  | f :: rest =>
    if pyEndsWith f.filename ".pdf" then
      match f.proc with
      | .error msg =>
        (.error (.serverError ("Error processing " ++ f.filename ++ ": "
          ++ msg)), s)
      | .ok chunks =>
        if chunks.isEmpty then
          (.error (.serverError ("Error processing " ++ f.filename
            ++ ": No text content could be extracted from PDF")), s)
        else
          match add_chunks s chunks f.embedded f.wIdx f.wMeta with
          | (.error _, s2, _) =>
            (.error (.serverError ("Error processing " ++ f.filename)), s2)
          | (.ok _, s2, _) =>
            match upload_pdfs s2 rest with
            | (.ok infos, s3) =>
              (.ok (⟨f.filename, chunks.length⟩ :: infos), s3)
            | (.error e, s3) => (.error e, s3)
    else
      (.error (.badRequest (f.filename ++ " is not a PDF")), s)

/-- A well-formed chunk for upload examples. -/
def sampleChunk : DocumentChunk := ⟨"hello world", "good.pdf", 1, "id0"⟩

/-- C7 counterexample: a batch of two files where the first fails document
processing.  `upload_pdfs` raises HTTP 500 for the failing file and the
second (perfectly processable) file is never handled: the final vector
store is unchanged and contains none of its chunks, contradicting "the
remaining documents are still processed and their chunks added". -/
theorem upload_aborts_batch_counterexample :
    upload_pdfs emptyVS
        [⟨"bad.pdf", .error "Failed to read PDF", .ok [], true, true⟩,
         ⟨"good.pdf", .ok [sampleChunk], .ok [[1]], true, true⟩]
      = (.error
          (.serverError "Error processing bad.pdf: Failed to read PDF"),
         emptyVS) ∧
    emptyVS.metadata = [] :=
  ⟨rfl, rfl⟩

/-- C7 (amended): document-processing errors are NOT per-document — the
first failing file aborts the whole batch with an HTTP 500, the remaining
files are not processed (the state returned with the error is exactly the
state before the failing file, whatever files follow), and only files
before the failure have had their chunks added. -/
theorem upload_aborts_batch (s : VSState) (f : FileSpec)
    (rest : List FileSpec) (msg : String)
    (hpdf : pyEndsWith f.filename ".pdf" = true)
    (hproc : f.proc = .error msg) :
    upload_pdfs s (f :: rest)
      = (.error (.serverError ("Error processing " ++ f.filename ++ ": "
          ++ msg)), s) := by
  unfold upload_pdfs
  rw [hproc]
  simp [hpdf]

/-- Witness for `upload_aborts_batch` at a concrete two-file batch. -/
theorem upload_aborts_batch_witness :
    upload_pdfs emptyVS
        [⟨"b.pdf", .error "boom", .ok [], true, true⟩,
         ⟨"good.pdf", .ok [sampleChunk], .ok [[1]], true, true⟩]
      = (.error (.serverError ("Error processing " ++ "b.pdf" ++ ": "
          ++ "boom")), emptyVS) :=
  upload_aborts_batch emptyVS ⟨"b.pdf", .error "boom", .ok [], true, true⟩
    [⟨"good.pdf", .ok [sampleChunk], .ok [[1]], true, true⟩] "boom"
    (by decide) rfl
